import Mathlib

/-!
# Shallow embedding of the DHT22 + PZEM-004T monitoring programs

This file embeds the acquisition core of the two near-duplicate Python
programs `surveillance_dht22_pzem.py` (called `v1` below) and
`surveillance_dht22_pzem_fixed.py` (called `fixed` below):

* Python floats are modelled as exact rationals (`ℚ`); `round(x, n)`
  (round-half-to-even on exact values) is `pyRound x n`.
* `math.log` is an abstract oracle `log : ℚ → ℚ`; the one behaviour of
  `math.log` the programs depend on — raising `ValueError` on a
  non-positive argument — is modelled explicitly by an `Option` result in
  the dew-point computation.
* A fallible Python function is embedded as an `Option`- or
  `Except`-returning function; a caught exception is the `none`/`error`
  branch.
* `random.uniform(a, b)` draws are universally quantified perturbation
  inputs; concrete runs pick values inside `[a, b]`.
* Wall-clock timestamps carry no information used by any claim and are
  omitted from the sample records.
-/

namespace Surveillance

/-! ## Python `round` on exact values (round-half-to-even) -/

/-- Round a rational to the nearest integer, ties to the even integer:
the behaviour of Python's built-in `round` on exact values. -/
def pyRoundInt (y : ℚ) : ℤ :=
  if y - ⌊y⌋ < 1/2 then ⌊y⌋
  else if 1/2 < y - ⌊y⌋ then ⌊y⌋ + 1
  else if ⌊y⌋ % 2 = 0 then ⌊y⌋ else ⌊y⌋ + 1

/-- Python's `round(x, n)` on exact values. -/
def pyRound (x : ℚ) (n : ℕ) : ℚ := (pyRoundInt (x * 10 ^ n) : ℚ) / 10 ^ n

theorem floor_le_pyRoundInt (y : ℚ) : ⌊y⌋ ≤ pyRoundInt y := by
  unfold pyRoundInt
  split_ifs <;> omega

theorem pyRoundInt_le_floor_add_one (y : ℚ) : pyRoundInt y ≤ ⌊y⌋ + 1 := by
  unfold pyRoundInt
  split_ifs <;> omega

theorem le_pyRoundInt (m : ℤ) (y : ℚ) (h : (m : ℚ) ≤ y) : m ≤ pyRoundInt y :=
  le_trans (Int.le_floor.mpr h) (floor_le_pyRoundInt y)

theorem pyRoundInt_le (m : ℤ) (y : ℚ) (h : y ≤ (m : ℚ)) : pyRoundInt y ≤ m := by
  rcases eq_or_lt_of_le h with heq | hlt
  · subst heq
    unfold pyRoundInt
    simp [Int.floor_intCast]
  · have hfl : ⌊y⌋ < m := Int.floor_lt.mpr hlt
    exact le_trans (pyRoundInt_le_floor_add_one y) (by omega)

theorem pyRoundInt_intCast (m : ℤ) : pyRoundInt (m : ℚ) = m :=
  le_antisymm (pyRoundInt_le m _ le_rfl) (le_pyRoundInt m _ le_rfl)

theorem abs_pyRoundInt_sub (y : ℚ) : |(pyRoundInt y : ℚ) - y| ≤ 1/2 := by
  have h0 : (⌊y⌋ : ℚ) ≤ y := Int.floor_le y
  have h1 : y < (⌊y⌋ : ℚ) + 1 := Int.lt_floor_add_one y
  rw [abs_le]
  unfold pyRoundInt
  split_ifs <;> constructor <;> push_cast <;> linarith

theorem pyRoundInt_mono {y₁ y₂ : ℚ} (h : y₁ ≤ y₂) : pyRoundInt y₁ ≤ pyRoundInt y₂ := by
  have hff : ⌊y₁⌋ ≤ ⌊y₂⌋ := Int.floor_le_floor h
  rcases lt_or_eq_of_le hff with hfl | hfl
  · calc pyRoundInt y₁ ≤ ⌊y₁⌋ + 1 := pyRoundInt_le_floor_add_one y₁
      _ ≤ ⌊y₂⌋ := by omega
      _ ≤ pyRoundInt y₂ := floor_le_pyRoundInt y₂
  · unfold pyRoundInt
    rw [← hfl]
    split_ifs <;> first | omega | (exfalso; linarith)

theorem pyRound_mono {x₁ x₂ : ℚ} (n : ℕ) (h : x₁ ≤ x₂) : pyRound x₁ n ≤ pyRound x₂ n := by
  have hm : pyRoundInt (x₁ * 10 ^ n) ≤ pyRoundInt (x₂ * 10 ^ n) :=
    pyRoundInt_mono (by nlinarith [pow_pos (show (0:ℚ) < 10 by norm_num) n])
  unfold pyRound
  gcongr

theorem abs_pyRound_sub (x : ℚ) (n : ℕ) : |pyRound x n - x| ≤ 1 / (2 * 10 ^ n) := by
  have hp : (0:ℚ) < 10 ^ n := by positivity
  have hkey := abs_pyRoundInt_sub (x * 10 ^ n)
  have hrw : pyRound x n - x = ((pyRoundInt (x * 10 ^ n) : ℚ) - x * 10 ^ n) / 10 ^ n := by
    field_simp [pyRound]
    ring
  rw [hrw, abs_div, abs_of_pos hp, div_le_div_iff₀ hp (by positivity)]
  nlinarith [hkey]

/-- If an integer bound `m` satisfies `m ≤ x·10^n`, the rounded value stays
at or above `m / 10^n` (used with exactly representable range endpoints). -/
theorem le_pyRound (m : ℤ) (x : ℚ) (n : ℕ) (h : (m : ℚ) ≤ x * 10 ^ n) :
    (m : ℚ) / 10 ^ n ≤ pyRound x n := by
  unfold pyRound
  gcongr
  exact le_pyRoundInt m _ h

theorem pyRound_le (m : ℤ) (x : ℚ) (n : ℕ) (h : x * 10 ^ n ≤ (m : ℚ)) :
    pyRound x n ≤ (m : ℚ) / 10 ^ n := by
  unfold pyRound
  gcongr
  exact pyRoundInt_le m _ h

theorem pyRound_natCast (m : ℕ) (n : ℕ) : pyRound (m : ℚ) n = (m : ℚ) := by
  unfold pyRound
  have : (m : ℚ) * 10 ^ n = ((m * 10 ^ n : ℕ) : ℚ) := by push_cast; ring
  rw [this]
  have : pyRoundInt ((m * 10 ^ n : ℕ) : ℚ) = ((m * 10 ^ n : ℕ) : ℤ) := by
    exact_mod_cast pyRoundInt_intCast ((m * 10 ^ n : ℕ) : ℤ)
  rw [this]
  push_cast
  field_simp

/-! ## Clamping, as written `max(lo, min(hi, x))` in both programs -/

def clamp (lo hi x : ℚ) : ℚ := max lo (min hi x)

theorem le_clamp (lo hi x : ℚ) : lo ≤ clamp lo hi x := le_max_left _ _

theorem clamp_le (lo hi x : ℚ) (h : lo ≤ hi) : clamp lo hi x ≤ hi :=
  max_le h (min_le_left _ _)

/-! ## Data model

`MesureEnvironnement` / `MesureElectrique` are the v1 dataclasses;
`MesureElectriqueFixed` is the revised program's electrical dataclass
(energy in Wh, with an alarm field and no separate power-factor schema).
The `timestamp` string carries no information used by any claim and is
omitted. -/

structure MesureEnvironnement where
  temperature : ℚ
  humidite : ℚ
  point_rosee : ℚ
  indice_chaleur : ℚ
deriving DecidableEq, Repr

structure MesureElectrique where
  tension : ℚ
  courant : ℚ
  puissance : ℚ
  energie : ℚ
  frequence : ℚ
  facteur_puissance : ℚ
deriving DecidableEq, Repr

structure MesureElectriqueFixed where
  voltage_V : ℚ
  current_A : ℚ
  power_W : ℚ
  energy_Wh : ℚ
  frequency_Hz : ℚ
  power_factor : ℚ
  alarm : ℕ
deriving DecidableEq, Repr

/-! ## Dew point (Magnus formula)

v1: `DHT22Sensor._calculer_point_rosee` — no guard; `math.log(hum/100)`
raises `ValueError` when its argument is non-positive, and the raised
exception propagates to the caller.  We model the raising computation as
`none`.  The value of `math.log` on a positive argument is abstracted by
the oracle `log`.  Python would also raise `ZeroDivisionError` on the two
divisions; those guards are modelled by `none` as well (they are
unreachable for clamped simulation inputs). -/

def calculer_point_rosee_v1 (log : ℚ → ℚ) (temp hum : ℚ) : Option ℚ :=
  if hum / 100 ≤ 0 then none
  else if (237.7 : ℚ) + temp = 0 then none
  else
    let alpha : ℚ := ((17.27 : ℚ) * temp) / ((237.7 : ℚ) + temp) + log (hum / 100)
    if (17.27 : ℚ) - alpha = 0 then none
    else some (((237.7 : ℚ) * alpha) / ((17.27 : ℚ) - alpha))

/-- fixed: `DHT22Sensor.calculer_point_rosee` — same formula inside a
`try`, rounded to 2 decimals; any exception is caught and the defined
sentinel `0.0` is returned. -/
def calculer_point_rosee_fixed (log : ℚ → ℚ) (temp hum : ℚ) : ℚ :=
  match calculer_point_rosee_v1 log temp hum with
  | none => 0
  | some pr => pyRound pr 2

/-! ## Heat index (Rothfusz regression) -/

/-- The NOAA regression polynomial shared verbatim by both programs. -/
def heatIndexPoly (T H : ℚ) : ℚ :=
  (-8.78469475556 : ℚ) + (1.61139411 : ℚ) * T + (2.33854883889 : ℚ) * H
    - (0.14611605 : ℚ) * T * H - (0.012308094 : ℚ) * T * T
    - (0.0164248277778 : ℚ) * H * H + (0.002211732 : ℚ) * T * T * H
    + (0.00072546 : ℚ) * T * H * H - (0.000003582 : ℚ) * T * T * H * H

/-- v1: `DHT22Sensor._calculer_indice_chaleur` — below 27 °C the raw
temperature passes through; otherwise the polynomial value is returned
unrounded (v1 rounds at sample construction). -/
def calculer_indice_chaleur_v1 (temp hum : ℚ) : ℚ :=
  if temp < 27 then temp else heatIndexPoly temp hum

/-- fixed: `DHT22Sensor.calculer_indice_chaleur` — the same computation
inside a `try` that rounds to 2 decimals; any exception during the
polynomial evaluation is caught and the raw input temperature is
returned unchanged.  Whether the evaluation raises is abstracted by the
`evalEchoue` flag (the polynomial itself is total on exact values). -/
def calculer_indice_chaleur_fixed (evalEchoue : Bool) (temp hum : ℚ) : ℚ :=
  if evalEchoue then temp
  else if temp < 27 then temp
  else pyRound (heatIndexPoly temp hum) 2

/-! ## DHT22 simulation path (v1 `DHT22Sensor.lire_mesure`, simulation
mode)

Each call adds a perturbation (`random.uniform(-0.5, 0.5)` for the
temperature, `random.uniform(-2, 2)` for the humidity), clamps to
`[-10, 50]` °C and `[0, 100]` %, derives dew point and heat index, and
builds the sample with 2-decimal rounding.  The `try/except` around the
body turns a `ValueError` raised by `math.log` into a `None` result; the
state update has already happened when the exception is raised. -/

structure DHT22SimState where
  sim_temp : ℚ
  sim_hum : ℚ
deriving DecidableEq, Repr

/-- Initial simulation scalars set in `DHT22Sensor.__init__`. -/
def dht22SimInit : DHT22SimState := ⟨22, 50⟩

def lire_mesure_dht22_sim (log : ℚ → ℚ) (s : DHT22SimState) (dTemp dHum : ℚ) :
    DHT22SimState × Option MesureEnvironnement :=
  let temp := clamp (-10) 50 (s.sim_temp + dTemp)
  let hum := clamp 0 100 (s.sim_hum + dHum)
  (⟨temp, hum⟩,
    (calculer_point_rosee_v1 log temp hum).map fun pr =>
      ⟨pyRound temp 2, pyRound hum 2, pyRound pr 2,
       pyRound (calculer_indice_chaleur_v1 temp hum) 2⟩)

/-- A sequence of simulated reads; returns the per-call results in call
order. -/
def run_dht22_sim (log : ℚ → ℚ) (s : DHT22SimState) :
    List (ℚ × ℚ) → List (Option MesureEnvironnement)
  | [] => []
  | (dT, dH) :: ds =>
      match lire_mesure_dht22_sim log s dT dH with
      | (s2, m) => m :: run_dht22_sim log s2 ds

/-! ## DHT22 construction (claim C6)

v1 `DHT22Sensor.__init__`: when the DHT library is importable
(`DHT_DISPONIBLE`) the hardware probe `adafruit_dht.DHT22(getattr(board,
f'D{pin}'))` runs inside a `try`; any exception (e.g. `AttributeError`
for a pin with no `D{pin}` board attribute) is caught and the channel
silently degrades to simulation mode.  Without the library the channel is
simulated regardless of the pin.  The probe's outcome is the `initOk`
input.  The constructor has no raising path, so its `Except` result is
always `ok`. -/

structure DHT22SensorV1 where
  gpio_pin : ℕ
  mode_simulation : Bool
deriving DecidableEq, Repr

def dht22_init_v1 (dhtDisponible : Bool) (gpio_pin : ℕ) (initOk : Bool) :
    Except Unit DHT22SensorV1 :=
  Except.ok ⟨gpio_pin, !(dhtDisponible && initOk)⟩

/-- fixed `DHT22Sensor.__init__`: the explicit `gpio_mapping` dictionary
keys. -/
def gpioSupportes : List ℕ := [23, 24, 4, 17, 27, 22]

structure DHT22SensorFixed where
  gpio_pin : ℕ
  /-- whether `adafruit_dht.DHT22(...)` succeeded (`self.dht` not `None`) -/
  dhtOk : Bool
deriving DecidableEq, Repr

/-- fixed `DHT22Sensor.__init__`: an unsupported pin raises `ValueError`
before any hardware access (`Except.error ()`); a supported pin
constructs the sensor, with the inner `try` recording whether the driver
came up. -/
def dht22_init_fixed (gpio_pin : ℕ) (dhtOk : Bool) : Except Unit DHT22SensorFixed :=
  if gpio_pin ∈ gpioSupportes then Except.ok ⟨gpio_pin, dhtOk⟩
  else Except.error ()

/-! ## PZEM-004T electrical channel

### Hardware decode

v1 `PZEMSensor.lire_mesure`, hardware branch (lines 383–394): ten input
registers are read from address 0 and the two-register quantities are
combined as `(regs[k] << 16) | regs[k+1]` — the FIRST register of the
pair supplies the high word.

fixed `PZEMSensor.lire_mesure` (lines 381–390): the same ten registers
are combined as `data[k] + (data[k+1] << 16)` — the SECOND register
supplies the high word — and the energy (Wh) is assigned without
scaling or rounding. -/

/-- The shared sample constructor of v1 (lines 396–404): rounding applied
to every field at construction. -/
def mkMesureElectriqueV1 (tension courant puissance energie frequence fp : ℚ) :
    MesureElectrique :=
  ⟨pyRound tension 2, pyRound courant 3, pyRound puissance 2,
   pyRound energie 3, pyRound frequence 2, pyRound fp 2⟩

def lire_mesure_pzem_v1_hw (regs : Fin 10 → ℕ) : MesureElectrique :=
  mkMesureElectriqueV1
    ((regs 0 : ℚ) / 10)
    ((((regs 1 <<< 16) ||| regs 2 : ℕ) : ℚ) / 1000)
    ((((regs 3 <<< 16) ||| regs 4 : ℕ) : ℚ) / 10)
    ((((regs 5 <<< 16) ||| regs 6 : ℕ) : ℚ) / 1000)
    ((regs 7 : ℚ) / 10)
    ((regs 8 : ℚ) / 100)

def lire_mesure_pzem_fixed_hw (data : Fin 10 → ℕ) : MesureElectriqueFixed :=
  ⟨pyRound ((data 0 : ℚ) / 10) 2,
   pyRound (((data 1 + (data 2 <<< 16) : ℕ) : ℚ) / 1000) 3,
   pyRound (((data 3 + (data 4 <<< 16) : ℕ) : ℚ) / 10) 2,
   ((data 5 + (data 6 <<< 16) : ℕ) : ℚ),
   pyRound ((data 7 : ℚ) / 10) 2,
   pyRound ((data 8 : ℚ) / 100) 2,
   data 9⟩

/-- The register block of the spec's decode test vector. -/
def regsTest : Fin 10 → ℕ := ![2300, 1500, 0, 500, 0, 1000, 0, 500, 95, 0]

/-! ### Simulation path (v1 `PZEMSensor.lire_mesure`, simulation mode)

Per call: perturb and clamp `sim_tension` to `[200, 250]` and
`sim_courant` to `[0, 10]`, compute `puissance = tension * courant`,
integrate `puissance / 3600000` into the energy accumulator, perturb
frequency around 50 Hz and power factor around 0.95, and construct the
rounded sample. -/

structure PZEMSimState where
  sim_tension : ℚ
  sim_courant : ℚ
  sim_energie : ℚ
deriving DecidableEq, Repr

/-- Initial simulation scalars set in `PZEMSensor.__init__`. -/
def pzemSimInit : PZEMSimState := ⟨230, 1.5, 0⟩

/-- One perturbation draw: `uniform(-2,2)`, `uniform(-0.1,0.1)`,
`uniform(-0.5,0.5)`, `uniform(-0.05,0.05)` in call order. -/
structure PerturbElec where
  dTension : ℚ
  dCourant : ℚ
  dFrequence : ℚ
  dFP : ℚ
deriving DecidableEq, Repr

def lire_mesure_pzem_sim (s : PZEMSimState) (d : PerturbElec) :
    PZEMSimState × MesureElectrique :=
  let tension := clamp 200 250 (s.sim_tension + d.dTension)
  let courant := clamp 0 10 (s.sim_courant + d.dCourant)
  let puissance := tension * courant
  let energie := s.sim_energie + puissance / 3600000
  (⟨tension, courant, energie⟩,
   mkMesureElectriqueV1 tension courant puissance energie
     (50 + d.dFrequence) ((0.95 : ℚ) + d.dFP))

/-- A sequence of simulated reads; returns the samples in call order. -/
def run_pzem_sim (s : PZEMSimState) : List PerturbElec → List MesureElectrique
  | [] => []
  | d :: ds =>
      match lire_mesure_pzem_sim s d with
      | (s2, m) => m :: run_pzem_sim s2 ds

/-! ## Recent-sample buffers and the acquisition cycle

`SystemeSurveillance.__init__` creates `deque(maxlen=100)` per sample
kind; `cycle_mesure` reads the environmental channel, and on success
first durably inserts the sample and then appends it to the deque, then
does the same for the electrical channel.  A durable-insert exception is
not caught anywhere inside the cycle: it propagates out of
`cycle_mesure`, and `boucle_surveillance` (which catches only
`KeyboardInterrupt`) lets it terminate the loop. -/

/-- `collections.deque(maxlen=cap).append`: when the deque is full the
oldest (leftmost) element is discarded. -/
def dequeAppend (cap : ℕ) (buf : List α) (x : α) : List α :=
  if buf.length < cap then buf ++ [x]
  else (buf ++ [x]).drop (buf.length + 1 - cap)

structure SysState where
  store_env : List MesureEnvironnement
  store_elec : List MesureElectrique
  buf_env : List MesureEnvironnement
  buf_elec : List MesureElectrique
deriving DecidableEq, Repr

def sysInit : SysState := ⟨[], [], [], []⟩

/-- Inputs of one acquisition cycle: the two channel read results, and
whether each durable insert raises (a persistence fault). -/
structure CycleInput where
  lectureEnv : Option MesureEnvironnement
  lectureElec : Option MesureElectrique
  panneEnvDb : Bool
  panneElecDb : Bool
deriving DecidableEq, Repr

/-- Environmental half of `cycle_mesure`; the `Bool` is true when an
uncaught exception escapes. -/
def cycle_env (s : SysState) (inp : CycleInput) : SysState × Bool :=
  match inp.lectureEnv with
  | none => (s, false)
  | some m =>
      if inp.panneEnvDb then (s, true)
      else ({ s with store_env := s.store_env ++ [m],
                     buf_env := dequeAppend 100 s.buf_env m }, false)

/-- Electrical half of `cycle_mesure`. -/
def cycle_elec (s : SysState) (inp : CycleInput) : SysState × Bool :=
  match inp.lectureElec with
  | none => (s, false)
  | some m =>
      if inp.panneElecDb then (s, true)
      else ({ s with store_elec := s.store_elec ++ [m],
                     buf_elec := dequeAppend 100 s.buf_elec m }, false)

/-- `SystemeSurveillance.cycle_mesure`: environmental part first; an
escaping exception aborts the rest of the cycle. -/
def cycle_mesure (s : SysState) (inp : CycleInput) : SysState × Bool :=
  let r1 := cycle_env s inp
  if r1.2 then (r1.1, true) else cycle_elec r1.1 inp

/-- `SystemeSurveillance.boucle_surveillance`, driven by a finite list of
cycle inputs: an exception escaping a cycle terminates the loop (only
`KeyboardInterrupt` is caught).  The `Bool` is true when the loop died on
an exception. -/
def boucle_surveillance (s : SysState) : List CycleInput → SysState × Bool
  | [] => (s, false)
  | inp :: rest =>
      let r := cycle_mesure s inp
      if r.2 then (r.1, true) else boucle_surveillance r.1 rest

/-! # Claims -/

/-- C1: the claim requires every two-register quantity to be decoded
low-word-first (low word from the first register OR-ed with the high word
from the second register shifted left 16), and on the register block
`[2300,1500,0,500,0,1000,0,500,95,0]` demands 230.0 V, 1.500 A, 50.0 W,
energy 1000, 50.0 Hz, power factor 0.95.  The revised program decodes
exactly that way and returns exactly those values (with alarm 0).  The
original program instead shifts the FIRST register of each pair left 16
(`(regs[k] << 16) | regs[k+1]`), so on the same block it returns
98304.000 A, 3276800.00 W and energy 65536.000 — a decode bug in v1
(the single-register quantities agree). -/
theorem C1_register_decode :
    lire_mesure_pzem_fixed_hw regsTest =
      ⟨230, 1.5, 50, 1000, 50, 0.95, 0⟩ ∧
    (lire_mesure_pzem_v1_hw regsTest).tension = 230 ∧
    (lire_mesure_pzem_v1_hw regsTest).courant = 98304 ∧
    (lire_mesure_pzem_v1_hw regsTest).puissance = 3276800 ∧
    (lire_mesure_pzem_v1_hw regsTest).energie = 65536 ∧
    (lire_mesure_pzem_v1_hw regsTest).courant ≠ 1.5 := by
  have h1 : ((regsTest 1 <<< 16) ||| regsTest 2 : ℕ) = 98304000 := by decide
  have h3 : ((regsTest 3 <<< 16) ||| regsTest 4 : ℕ) = 32768000 := by decide
  have h5 : ((regsTest 5 <<< 16) ||| regsTest 6 : ℕ) = 65536000 := by decide
  have g1 : (regsTest 1 + (regsTest 2 <<< 16) : ℕ) = 1500 := by decide
  have g3 : (regsTest 3 + (regsTest 4 <<< 16) : ℕ) = 500 := by decide
  have g5 : (regsTest 5 + (regsTest 6 <<< 16) : ℕ) = 1000 := by decide
  have r0 : regsTest 0 = 2300 := by decide
  have r7 : regsTest 7 = 500 := by decide
  have r8 : regsTest 8 = 95 := by decide
  have r9 : regsTest 9 = 0 := by decide
  norm_num [lire_mesure_pzem_fixed_hw, lire_mesure_pzem_v1_hw,
    mkMesureElectriqueV1, h1, h3, h5, g1, g3, g5, r0, r7, r8, r9,
    pyRound, pyRoundInt, Int.fract]

/-- A concrete environmental sample, used as a test vector. -/
def mEnvTest : MesureEnvironnement := ⟨22, 50, 11.08, 22⟩

/-- A concrete electrical sample, used as a test vector. -/
def mElecTest : MesureElectrique := ⟨230, 1.5, 345, 0, 50, 0.95⟩

/-- C2, counterexample: in a cycle whose environmental read succeeds but
whose durable insert raises, the buffer update does NOT occur (the
buffer stays empty) and the exception escapes the cycle; a following
cycle input is never processed — the loop terminates. -/
theorem C2_counterexample :
    (cycle_mesure sysInit ⟨some mEnvTest, none, true, false⟩).1.buf_env = [] ∧
    (cycle_mesure sysInit ⟨some mEnvTest, none, true, false⟩).2 = true ∧
    boucle_surveillance sysInit
      [⟨some mEnvTest, none, true, false⟩, ⟨some mEnvTest, none, false, false⟩] =
      (sysInit, true) :=
  ⟨rfl, rfl, rfl⟩

/-- C2, amended: when a channel read succeeds but the durable append for
that sample raises, the in-memory buffer update for that sample does not
occur — the durable insert is attempted first and the exception
propagates out of `cycle_mesure`, leaving the state reached so far
untouched (so the buffer is not corrupted) and terminating the
acquisition loop.  Store and buffer updates are sequenced inside one
unprotected block, not independent best-effort steps.  The environmental
conjunct covers an environmental-insert fault (nothing at all is
updated); the electrical conjunct covers an electrical-insert fault in
any cycle whose environmental half completed without fault — including
the normal cycle where both reads succeed and the environmental sample
was already persisted and buffered: the electrical store and buffer keep
exactly their pre-cycle contents and the loop dies. -/
theorem C2_amended (s : SysState) (inp : CycleInput) (rest : List CycleInput) :
    (∀ m, inp.lectureEnv = some m → inp.panneEnvDb = true →
      cycle_mesure s inp = (s, true) ∧
      boucle_surveillance s (inp :: rest) = (s, true)) ∧
    (∀ me, inp.lectureElec = some me → inp.panneElecDb = true →
      (cycle_env s inp).2 = false →
      cycle_mesure s inp = ((cycle_env s inp).1, true) ∧
      (cycle_mesure s inp).1.buf_elec = s.buf_elec ∧
      (cycle_mesure s inp).1.store_elec = s.store_elec ∧
      boucle_surveillance s (inp :: rest) = ((cycle_env s inp).1, true)) := by
  constructor
  · intro m h1 h2
    have hc : cycle_mesure s inp = (s, true) := by
      simp [cycle_mesure, cycle_env, h1, h2]
    exact ⟨hc, by simp [boucle_surveillance, hc]⟩
  · intro me h1 h2 henv
    have hcm : cycle_mesure s inp = ((cycle_env s inp).1, true) := by
      simp [cycle_mesure, cycle_elec, henv, h1, h2]
    have hkeep : (cycle_env s inp).1.buf_elec = s.buf_elec ∧
        (cycle_env s inp).1.store_elec = s.store_elec := by
      unfold cycle_env
      rcases hle : inp.lectureEnv with _ | m
      · exact ⟨rfl, rfl⟩
      · by_cases hp : inp.panneEnvDb <;> simp [hp]
    refine ⟨hcm, ?_, ?_, by simp [boucle_surveillance, hcm]⟩
    · rw [hcm]
      exact hkeep.1
    · rw [hcm]
      exact hkeep.2

theorem C2_amended_witness :
    (cycle_mesure sysInit ⟨some mEnvTest, none, true, false⟩ = (sysInit, true) ∧
     boucle_surveillance sysInit [⟨some mEnvTest, none, true, false⟩] = (sysInit, true)) ∧
    (cycle_mesure sysInit ⟨some mEnvTest, some mElecTest, false, true⟩
        = ((cycle_env sysInit ⟨some mEnvTest, some mElecTest, false, true⟩).1, true) ∧
     (cycle_mesure sysInit ⟨some mEnvTest, some mElecTest, false, true⟩).1.buf_elec
        = sysInit.buf_elec ∧
     (cycle_mesure sysInit ⟨some mEnvTest, some mElecTest, false, true⟩).1.store_elec
        = sysInit.store_elec ∧
     boucle_surveillance sysInit [⟨some mEnvTest, some mElecTest, false, true⟩]
        = ((cycle_env sysInit ⟨some mEnvTest, some mElecTest, false, true⟩).1, true)) :=
  ⟨(C2_amended sysInit ⟨some mEnvTest, none, true, false⟩ []).1 mEnvTest rfl rfl,
   (C2_amended sysInit ⟨some mEnvTest, some mElecTest, false, true⟩ []).2
     mElecTest rfl rfl rfl⟩

/-- C9: within one cycle, a read failure (`None`) on one channel never
prevents the persistence and buffering of a successful read on the other
channel; both channels are processed, and a successful read is appended
to its store and pushed to its buffer regardless of the other channel's
outcome (no persistence faults assumed, per the claim). -/
theorem C9_independence (s : SysState) (me : MesureEnvironnement)
    (mel : MesureElectrique) (b1 b2 : Bool) :
    cycle_mesure s ⟨none, some mel, b1, false⟩ =
      ({ s with store_elec := s.store_elec ++ [mel],
                buf_elec := dequeAppend 100 s.buf_elec mel }, false) ∧
    cycle_mesure s ⟨some me, none, false, b2⟩ =
      ({ s with store_env := s.store_env ++ [me],
                buf_env := dequeAppend 100 s.buf_env me }, false) ∧
    cycle_mesure s ⟨some me, some mel, false, false⟩ =
      ({ s with store_env := s.store_env ++ [me],
                buf_env := dequeAppend 100 s.buf_env me,
                store_elec := s.store_elec ++ [mel],
                buf_elec := dequeAppend 100 s.buf_elec mel }, false) :=
  ⟨rfl, rfl, rfl⟩

/-- The closed form of folding `deque(maxlen=cap).append` over a list of
pushes: only the trailing `cap` elements survive, in arrival order. -/
theorem foldl_dequeAppend {α : Type} (cap : ℕ) :
    ∀ (xs acc : List α), acc.length ≤ cap →
      xs.foldl (dequeAppend cap) acc = (acc ++ xs).drop (acc.length + xs.length - cap) := by
  intro xs
  induction xs with
  | nil =>
      intro acc hacc
      simp [Nat.sub_eq_zero_of_le hacc]
  | cons x xs ih =>
      intro acc hacc
      rw [List.foldl_cons]
      by_cases hlen : acc.length < cap
      · have hda : dequeAppend cap acc x = acc ++ [x] := by
          simp [dequeAppend, hlen]
        rw [hda, ih (acc ++ [x]) (by simp; omega)]
        have hidx : (acc ++ [x]).length + xs.length - cap
            = acc.length + (x :: xs).length - cap := by simp; omega
        rw [hidx, List.append_assoc]
        simp
      · have heq : acc.length = cap := le_antisymm hacc (not_lt.mp hlen)
        have hda : dequeAppend cap acc x = (acc ++ [x]).drop 1 := by
          simp [dequeAppend, hlen, heq]
        have hlen1 : ((acc ++ [x]).drop 1).length = cap := by
          simp [heq]
        rw [hda, ih _ (le_of_eq hlen1), hlen1]
        rw [← List.drop_append_of_le_length (by simp), List.drop_drop]
        have h2 : acc.length + (x :: xs).length - cap = xs.length + 1 := by
          simp [heq]
        rw [h2, List.append_assoc]
        simp only [List.singleton_append]
        congr 1
        omega

/-- C7: the recent-sample buffer (`deque(maxlen=100)` per sample kind)
never holds more than 100 elements after any sequence of pushes, and
pushing 150 samples leaves exactly the newest 100 in arrival order (the
oldest 50 are dropped). -/
theorem C7_buffer_capacity_fifo {α : Type} :
    (∀ (xs : List α), (xs.foldl (dequeAppend 100) []).length ≤ 100) ∧
    ∀ (xs : List α), xs.length = 150 →
      xs.foldl (dequeAppend 100) [] = xs.drop 50 := by
  constructor
  · intro xs
    rw [foldl_dequeAppend 100 xs [] (by simp)]
    simp
    omega
  · intro xs hx
    rw [foldl_dequeAppend 100 xs [] (by simp)]
    simp [hx]

/-- A concrete logarithm oracle (its values on positive arguments are
irrelevant to the control flow being analysed). -/
def log0 : ℚ → ℚ := fun _ => 0

/-- Under the `log0` oracle the Magnus computation at 22 °C inverts
exactly: the dew point is 22 and the read succeeds whenever the clamped
humidity is positive. -/
theorem point_rosee_log0_at22 (h : ℚ) (hpos : 0 < h) :
    calculer_point_rosee_v1 log0 22 h = some 22 := by
  unfold calculer_point_rosee_v1 log0
  simp only []
  rw [if_neg (by push_neg; positivity), if_neg (by norm_num), if_neg (by norm_num)]
  norm_num

/-- One simulated step with perturbation `(0, −2)` from temperature 22
and humidity `h ∈ (2, 100]`: the state drops to humidity `h − 2` and a
fully populated sample is returned. -/
theorem dht22_sim_step_some (h : ℚ) (h1 : 0 < h - 2) (h2 : h ≤ 100) :
    lire_mesure_dht22_sim log0 ⟨22, h⟩ 0 (-2)
      = (⟨22, h - 2⟩, some ⟨22, pyRound (h - 2) 2, 22, 22⟩) := by
  have hc1 : clamp (-10) 50 ((22 : ℚ) + 0) = 22 := by
    rw [clamp]
    norm_num
  have hc2 : clamp 0 100 (h + -2) = h - 2 := by
    rw [clamp, min_eq_right (by linarith), max_eq_right (by linarith)]
    ring
  have h22 : pyRound (22 : ℚ) 2 = 22 := by
    norm_num [pyRound, pyRoundInt]
  simp only [lire_mesure_dht22_sim, hc1, hc2,
    point_rosee_log0_at22 (h - 2) h1, calculer_indice_chaleur_v1,
    if_pos (show (22 : ℚ) < 27 by norm_num), h22, Option.map_some']

/-- One simulated step with perturbation `(0, −2)` from humidity exactly
2: the clamped humidity hits 0, the unguarded logarithm raises, and the
call yields the absence marker (state already updated). -/
theorem dht22_sim_step_none :
    lire_mesure_dht22_sim log0 ⟨22, 2⟩ 0 (-2) = (⟨22, 0⟩, none) := by
  have hc1 : clamp (-10) 50 ((22 : ℚ) + 0) = 22 := by
    rw [clamp]
    norm_num
  have hc2 : clamp 0 100 ((2 : ℚ) + -2) = 0 := by
    rw [clamp]
    norm_num
  simp only [lire_mesure_dht22_sim, hc1, hc2, calculer_point_rosee_v1,
    if_pos (show (0 : ℚ) / 100 ≤ 0 by norm_num), Option.map_none']

/-- The last of `n+1` simulated steps from humidity `2n + 2` (with
perturbations `(0, −2)`) hits humidity exactly 0, where the unguarded
logarithm raises and the read yields the absence marker; the `n` calls
before it all succeed. -/
theorem dht22_sim_run_key (n : ℕ) (hn : n ≤ 48) :
    (run_dht22_sim log0 ⟨22, 2 * n + 2⟩
        (List.replicate (n + 1) ((0 : ℚ), (-2 : ℚ)))).getLast? = some none ∧
    (run_dht22_sim log0 ⟨22, 2 * n + 2⟩
        (List.replicate n ((0 : ℚ), (-2 : ℚ)))).all Option.isSome = true := by
  induction n with
  | zero =>
      have hz : ((2 : ℚ) * (0 : ℕ) + 2) = 2 := by norm_num
      rw [hz]
      constructor
      · rw [List.replicate_succ, List.replicate_zero, run_dht22_sim]
        simp [dht22_sim_step_none, run_dht22_sim]
      · simp [run_dht22_sim]
  | succ n ih =>
      have hnq : (0 : ℚ) ≤ (n : ℚ) := Nat.cast_nonneg n
      have hn48 : (n : ℚ) ≤ 48 := by exact_mod_cast le_trans (Nat.le_succ n) hn
      have hstep := dht22_sim_step_some ((2 : ℚ) * ((n + 1 : ℕ) : ℚ) + 2)
        (by push_cast; linarith) (by push_cast; linarith)
      have hcast : (2 : ℚ) * ((n + 1 : ℕ) : ℚ) + 2 - 2 = 2 * (n : ℚ) + 2 := by
        push_cast
        ring
      rw [hcast] at hstep
      obtain ⟨ih1, ih2⟩ := ih (le_trans (Nat.le_succ n) hn)
      constructor
      · rw [List.replicate_succ, run_dht22_sim]
        simp only [hstep]
        obtain ⟨y, ys, hL⟩ : ∃ y ys, run_dht22_sim log0 ⟨22, 2 * (n : ℚ) + 2⟩
            (List.replicate (n + 1) ((0 : ℚ), (-2 : ℚ))) = y :: ys := by
          rw [List.replicate_succ, run_dht22_sim]
          exact ⟨_, _, rfl⟩
        rw [hL] at ih1
        rw [hL, List.getLast?_cons_cons]
        exact ih1
      · rw [List.replicate_succ, run_dht22_sim]
        simp only [hstep, List.all_cons, Option.isSome_some, Bool.true_and]
        exact ih2

/-- C3: the claim says the simulated environmental read never returns
the absence marker.  The code violates it: 25 consecutive humidity
perturbations of −2.0 (each inside `uniform(-2, 2)`) drive the clamped
simulated humidity from 50 % down to exactly 0 %, where
`math.log(hum/100)` raises `ValueError`; the catch-all in `lire_mesure`
turns that into a `None` result.  The first 24 calls all still return
fully populated samples — the failure is precisely the unguarded
logarithm at 0 % humidity (the guard the spec demands and which the
revised program's `calculer_point_rosee` adds). -/
theorem C3_sim_absence_marker :
    (run_dht22_sim log0 dht22SimInit (List.replicate 25 ((0 : ℚ), (-2 : ℚ)))).getLast?
      = some none ∧
    (run_dht22_sim log0 dht22SimInit (List.replicate 24 ((0 : ℚ), (-2 : ℚ)))).all
      Option.isSome = true := by
  have hkey := dht22_sim_run_key 24 (by norm_num)
  have hinit : dht22SimInit = (⟨22, 2 * ((24 : ℕ) : ℚ) + 2⟩ : DHT22SimState) := by
    unfold dht22SimInit
    norm_num
  rw [hinit]
  exact hkey

/-- C4: every input with `humidityPct ≤ 0` must hit an explicit guard and
yield the sentinel `0.0` instead of a propagated error.  The revised
program's `calculer_point_rosee` does exactly that (the `try/except`
returns `0.0` and the function is total).  In v1, `_calculer_point_rosee`
has no guard: `math.log` raises and the exception propagates out of the
helper (modelled by `none`) — the sentinel is never produced there. -/
theorem C4_dewpoint_guard (log : ℚ → ℚ) (temp hum : ℚ) (h : hum ≤ 0) :
    calculer_point_rosee_v1 log temp hum = none ∧
    calculer_point_rosee_fixed log temp hum = 0 := by
  have hh : hum / 100 ≤ 0 := by linarith
  have hv1 : calculer_point_rosee_v1 log temp hum = none := by
    unfold calculer_point_rosee_v1
    rw [if_pos hh]
  exact ⟨hv1, by unfold calculer_point_rosee_fixed; rw [hv1]⟩

theorem C4_dewpoint_guard_witness :
    calculer_point_rosee_v1 (fun _ => 0) 20 0 = none ∧
    calculer_point_rosee_fixed (fun _ => 0) 20 0 = 0 :=
  C4_dewpoint_guard (fun _ => 0) 20 0 le_rfl

/-- `q` is exactly representable with `k` decimal digits. -/
def estPrecision (q : ℚ) (k : ℕ) : Prop := ∃ z : ℤ, q = (z : ℚ) / 10 ^ k

theorem pyRound_estPrecision (x : ℚ) (k : ℕ) : estPrecision (pyRound x k) k :=
  ⟨pyRoundInt (x * 10 ^ k), rfl⟩

/-- C5: every numeric field of a constructed electrical sample carries
the claimed fixed precision: 2 decimal digits for voltage, power,
frequency and power factor, 3 for current and energy.  In v1 this holds
for every raw input because each field is rounded at construction; in the
revised program the energy field is assigned without a `round` call, but
it is an integral register value, so it equals its own 3-decimal
rounding and the precision property still holds. -/
theorem C5_rounded_precision :
    (∀ t c p e f fp : ℚ,
      estPrecision (mkMesureElectriqueV1 t c p e f fp).tension 2 ∧
      estPrecision (mkMesureElectriqueV1 t c p e f fp).courant 3 ∧
      estPrecision (mkMesureElectriqueV1 t c p e f fp).puissance 2 ∧
      estPrecision (mkMesureElectriqueV1 t c p e f fp).energie 3 ∧
      estPrecision (mkMesureElectriqueV1 t c p e f fp).frequence 2 ∧
      estPrecision (mkMesureElectriqueV1 t c p e f fp).facteur_puissance 2) ∧
    (∀ data : Fin 10 → ℕ,
      estPrecision (lire_mesure_pzem_fixed_hw data).voltage_V 2 ∧
      estPrecision (lire_mesure_pzem_fixed_hw data).current_A 3 ∧
      estPrecision (lire_mesure_pzem_fixed_hw data).power_W 2 ∧
      estPrecision (lire_mesure_pzem_fixed_hw data).energy_Wh 3 ∧
      (lire_mesure_pzem_fixed_hw data).energy_Wh
        = pyRound (lire_mesure_pzem_fixed_hw data).energy_Wh 3 ∧
      estPrecision (lire_mesure_pzem_fixed_hw data).frequency_Hz 2 ∧
      estPrecision (lire_mesure_pzem_fixed_hw data).power_factor 2) := by
  constructor
  · intro t c p e f fp
    exact ⟨pyRound_estPrecision _ _, pyRound_estPrecision _ _, pyRound_estPrecision _ _,
      pyRound_estPrecision _ _, pyRound_estPrecision _ _, pyRound_estPrecision _ _⟩
  · intro data
    refine ⟨pyRound_estPrecision _ _, pyRound_estPrecision _ _, pyRound_estPrecision _ _,
      ?_, ?_, pyRound_estPrecision _ _, pyRound_estPrecision _ _⟩
    · refine ⟨((data 5 + (data 6 <<< 16) : ℕ) : ℤ) * 1000, ?_⟩
      simp only [lire_mesure_pzem_fixed_hw]
      push_cast
      ring
    · simp only [lire_mesure_pzem_fixed_hw]
      exact (pyRound_natCast (data 5 + (data 6 <<< 16)) 3).symm

/-- C6, counterexample: in v1, constructing the environmental channel
with the DHT library present and an unsupported GPIO pin (99, for which
the `getattr(board, 'D99')` probe fails) does NOT raise: the constructor
returns a channel silently degraded to simulation mode. -/
theorem C6_counterexample :
    dht22_init_v1 true 99 false = Except.ok ⟨99, true⟩ ∧
    dht22_init_v1 true 99 false ≠ Except.error () :=
  ⟨rfl, by simp [dht22_init_v1]⟩

/-- C6, amended: in the revised program the configuration fault is indeed
fatal at construction — an unsupported GPIO pin raises `ValueError`
before the loop can start, and a supported pin never does; in the
original program the constructor never raises at all, and a failed
hardware probe yields a simulated channel instead. -/
theorem C6_amended (pin : ℕ) (dhtOk : Bool) :
    (pin ∉ gpioSupportes → dht22_init_fixed pin dhtOk = Except.error ()) ∧
    (pin ∈ gpioSupportes → dht22_init_fixed pin dhtOk = Except.ok ⟨pin, dhtOk⟩) ∧
    (∀ (d i : Bool), dht22_init_v1 d pin i
        = Except.ok ⟨pin, !(d && i)⟩) := by
  refine ⟨fun h => ?_, fun h => ?_, fun d i => rfl⟩
  · simp [dht22_init_fixed, h]
  · simp [dht22_init_fixed, h]

theorem C6_amended_witness :
    (99 ∉ gpioSupportes) ∧ dht22_init_fixed 99 true = Except.error () :=
  ⟨by decide, (C6_amended 99 true).1 (by decide)⟩

theorem C7_buffer_capacity_fifo_witness :
    (List.replicate 150 mEnvTest).length = 150 ∧
    (List.replicate 150 mEnvTest).foldl (dequeAppend 100) []
      = (List.replicate 150 mEnvTest).drop 50 :=
  ⟨List.length_replicate 150 mEnvTest,
   C7_buffer_capacity_fifo.2 _ (List.length_replicate 150 mEnvTest)⟩

/-! ## C8: invariants of the simulated electrical channel -/

/-- The fields of one simulated electrical sample, written out against
the clamped internal state (all five equations hold by computation). -/
theorem lire_mesure_pzem_sim_fields (s : PZEMSimState) (d : PerturbElec) :
    (lire_mesure_pzem_sim s d).2.tension
        = pyRound (clamp 200 250 (s.sim_tension + d.dTension)) 2 ∧
    (lire_mesure_pzem_sim s d).2.courant
        = pyRound (clamp 0 10 (s.sim_courant + d.dCourant)) 3 ∧
    (lire_mesure_pzem_sim s d).2.puissance
        = pyRound (clamp 200 250 (s.sim_tension + d.dTension) *
            clamp 0 10 (s.sim_courant + d.dCourant)) 2 ∧
    (lire_mesure_pzem_sim s d).2.energie
        = pyRound (lire_mesure_pzem_sim s d).1.sim_energie 3 ∧
    (lire_mesure_pzem_sim s d).1.sim_energie
        = s.sim_energie + clamp 200 250 (s.sim_tension + d.dTension) *
            clamp 0 10 (s.sim_courant + d.dCourant) / 3600000 :=
  ⟨rfl, rfl, rfl, rfl, rfl⟩

/-- Range and rounding-tolerance facts for any single simulated sample:
the returned voltage stays in [200, 250], the current in [0, 10], and
the power field differs from the product of the returned voltage and
current only by rounding (at most 0.2 W). -/
theorem pzem_sim_sample_spec (s : PZEMSimState) (d : PerturbElec) :
    200 ≤ (lire_mesure_pzem_sim s d).2.tension ∧
    (lire_mesure_pzem_sim s d).2.tension ≤ 250 ∧
    0 ≤ (lire_mesure_pzem_sim s d).2.courant ∧
    (lire_mesure_pzem_sim s d).2.courant ≤ 10 ∧
    |(lire_mesure_pzem_sim s d).2.puissance
      - (lire_mesure_pzem_sim s d).2.tension * (lire_mesure_pzem_sim s d).2.courant|
      ≤ 1/5 := by
  obtain ⟨hT, hC, hP, _, _⟩ := lire_mesure_pzem_sim_fields s d
  set t := clamp 200 250 (s.sim_tension + d.dTension) with htdef
  set c := clamp 0 10 (s.sim_courant + d.dCourant) with hcdef
  have ht1 : (200 : ℚ) ≤ t := le_clamp _ _ _
  have ht2 : t ≤ 250 := clamp_le _ _ _ (by norm_num)
  have hc1 : (0 : ℚ) ≤ c := le_clamp _ _ _
  have hc2 : c ≤ 10 := clamp_le _ _ _ (by norm_num)
  have hVlo : (200 : ℚ) ≤ pyRound t 2 := by
    have h := le_pyRound 20000 t 2 (by norm_num; linarith)
    norm_num at h
    exact h
  have hVhi : pyRound t 2 ≤ 250 := by
    have h := pyRound_le 25000 t 2 (by norm_num; linarith)
    norm_num at h
    exact h
  have hIlo : (0 : ℚ) ≤ pyRound c 3 := by
    have h := le_pyRound 0 c 3 (by norm_num; linarith)
    norm_num at h
    exact h
  have hIhi : pyRound c 3 ≤ 10 := by
    have h := pyRound_le 10000 c 3 (by norm_num; linarith)
    norm_num at h
    exact h
  rw [hT, hC, hP]
  refine ⟨hVlo, hVhi, hIlo, hIhi, ?_⟩
  have hPd : |pyRound (t * c) 2 - t * c| ≤ 1/200 := by
    have h := abs_pyRound_sub (t * c) 2
    norm_num at h
    exact h
  have hVd : |t - pyRound t 2| ≤ 1/200 := by
    have h := abs_pyRound_sub t 2
    rw [abs_sub_comm] at h
    norm_num at h
    exact h
  have hId : |c - pyRound c 3| ≤ 1/2000 := by
    have h := abs_pyRound_sub c 3
    rw [abs_sub_comm] at h
    norm_num at h
    exact h
  have hiden : pyRound (t * c) 2 - pyRound t 2 * pyRound c 3
      = (pyRound (t * c) 2 - t * c) + c * (t - pyRound t 2)
        + pyRound t 2 * (c - pyRound c 3) := by
    ring
  rw [hiden]
  have habs2 : |c * (t - pyRound t 2)| ≤ 10 * (1/200) := by
    rw [abs_mul]
    exact mul_le_mul (abs_le.mpr ⟨by linarith, hc2⟩) hVd (abs_nonneg _) (by norm_num)
  have habs3 : |pyRound t 2 * (c - pyRound c 3)| ≤ 250 * (1/2000) := by
    rw [abs_mul]
    exact mul_le_mul (abs_le.mpr ⟨by linarith, hVhi⟩) hId (abs_nonneg _) (by norm_num)
  calc |(pyRound (t * c) 2 - t * c) + c * (t - pyRound t 2)
        + pyRound t 2 * (c - pyRound c 3)|
      ≤ |pyRound (t * c) 2 - t * c| + |c * (t - pyRound t 2)|
        + |pyRound t 2 * (c - pyRound c 3)| := abs_add_three _ _ _
    _ ≤ 1/200 + 10 * (1/200) + 250 * (1/2000) := by
        exact add_le_add (add_le_add hPd habs2) habs3
    _ ≤ 1/5 := by norm_num

/-- Every sample produced along a simulated run satisfies the per-sample
range and tolerance facts. -/
theorem run_pzem_sim_mem_spec :
    ∀ (ds : List PerturbElec) (s : PZEMSimState) (m : MesureElectrique),
      m ∈ run_pzem_sim s ds →
      200 ≤ m.tension ∧ m.tension ≤ 250 ∧ 0 ≤ m.courant ∧ m.courant ≤ 10 ∧
      |m.puissance - m.tension * m.courant| ≤ 1/5
  | [], s, m, hm => by simp [run_pzem_sim] at hm
  | d :: ds, s, m, hm => by
      rcases hsd : lire_mesure_pzem_sim s d with ⟨s2, m2⟩
      rw [run_pzem_sim, hsd] at hm
      rcases List.mem_cons.mp hm with rfl | hmem
      · have h := pzem_sim_sample_spec s d
        rw [hsd] at h
        exact h
      · exact run_pzem_sim_mem_spec ds s2 m hmem

/-- Along a simulated run, the rounded energy accumulator snapshot of the
starting state bounds every later sample's energy field from below. -/
theorem run_pzem_sim_energie_lb :
    ∀ (ds : List PerturbElec) (s : PZEMSimState) (m : MesureElectrique),
      m ∈ run_pzem_sim s ds → pyRound s.sim_energie 3 ≤ m.energie
  | [], s, m, hm => by simp [run_pzem_sim] at hm
  | d :: ds, s, m, hm => by
      rcases hsd : lire_mesure_pzem_sim s d with ⟨s2, m2⟩
      rw [run_pzem_sim, hsd] at hm
      have hfields := lire_mesure_pzem_sim_fields s d
      rw [hsd] at hfields
      obtain ⟨-, -, -, h4, h5⟩ := hfields
      have htc : (0 : ℚ) ≤ clamp 200 250 (s.sim_tension + d.dTension) *
          clamp 0 10 (s.sim_courant + d.dCourant) :=
        mul_nonneg (le_trans (by norm_num) (le_clamp _ _ _)) (le_clamp _ _ _)
      have hE : s.sim_energie ≤ s2.sim_energie := by
        have hd : (0 : ℚ) ≤ clamp 200 250 (s.sim_tension + d.dTension) *
            clamp 0 10 (s.sim_courant + d.dCourant) / 3600000 :=
          div_nonneg htc (by norm_num)
        rw [h5]
        linarith
      rcases List.mem_cons.mp hm with rfl | hmem
      · rw [h4]
        exact pyRound_mono 3 hE
      · exact le_trans (pyRound_mono 3 hE) (run_pzem_sim_energie_lb ds s2 m hmem)

/-- The energy fields of the samples of a simulated run are
non-decreasing in call order. -/
theorem run_pzem_sim_energie_chain :
    ∀ (ds : List PerturbElec) (s : PZEMSimState),
      List.Chain' (fun a b => a ≤ b)
        ((run_pzem_sim s ds).map MesureElectrique.energie)
  | [], s => by simp [run_pzem_sim]
  | d :: ds, s => by
      rcases hsd : lire_mesure_pzem_sim s d with ⟨s2, m2⟩
      rw [run_pzem_sim, hsd]
      simp only [List.map_cons]
      rw [List.chain'_cons']
      refine ⟨?_, run_pzem_sim_energie_chain ds s2⟩
      intro b hb
      have hbmem : b ∈ (run_pzem_sim s2 ds).map MesureElectrique.energie :=
        List.mem_of_mem_head? hb
      rcases List.mem_map.mp hbmem with ⟨m, hmmem, rfl⟩
      have hfields := lire_mesure_pzem_sim_fields s d
      rw [hsd] at hfields
      rw [hfields.2.2.2.1]
      exact run_pzem_sim_energie_lb ds s2 m hmmem

/-- C8, counterexample: the claim asserts the returned power equals the
returned voltage times the returned current.  One legal perturbation
(+0.004 V within `uniform(-2,2)`, +0.0004 A within `uniform(-0.1,0.1)`)
already breaks it: the sample returned by the first call carries
voltage 230.00, current 1.500 and power 345.10 (rounded from
230.004 × 1.5004 = 345.0980016), while 230.00 × 1.500 = 345.00. -/
theorem C8_counterexample :
    run_pzem_sim pzemSimInit [⟨0.004, 0.0004, 0, 0⟩]
      = [(lire_mesure_pzem_sim pzemSimInit ⟨0.004, 0.0004, 0, 0⟩).2] ∧
    (lire_mesure_pzem_sim pzemSimInit ⟨0.004, 0.0004, 0, 0⟩).2.tension = 230 ∧
    (lire_mesure_pzem_sim pzemSimInit ⟨0.004, 0.0004, 0, 0⟩).2.courant = 1.5 ∧
    (lire_mesure_pzem_sim pzemSimInit ⟨0.004, 0.0004, 0, 0⟩).2.puissance = 345.1 ∧
    (lire_mesure_pzem_sim pzemSimInit ⟨0.004, 0.0004, 0, 0⟩).2.puissance ≠
      (lire_mesure_pzem_sim pzemSimInit ⟨0.004, 0.0004, 0, 0⟩).2.tension *
      (lire_mesure_pzem_sim pzemSimInit ⟨0.004, 0.0004, 0, 0⟩).2.courant := by
  refine ⟨rfl, ?_, ?_, ?_, ?_⟩ <;>
    norm_num [lire_mesure_pzem_sim, mkMesureElectriqueV1, pzemSimInit,
      clamp, min_def, max_def, pyRound, pyRoundInt]

/-- C8, amended: after any number of consecutive simulated `read()`
calls, every returned sample has voltage in [200, 250] V and current in
[0, 10] A, the power field equals voltage × current up to the rounding
tolerance (within 0.2 W — exact equality holds for the unrounded
internal quantities, but each field is rounded independently at sample
construction), and the energy fields are non-decreasing across the
sequence (the accumulator adds `power/3600000 ≥ 0` per call). -/
theorem C8_amended (ds : List PerturbElec) :
    (∀ m ∈ run_pzem_sim pzemSimInit ds,
      200 ≤ m.tension ∧ m.tension ≤ 250 ∧ 0 ≤ m.courant ∧ m.courant ≤ 10 ∧
      |m.puissance - m.tension * m.courant| ≤ 1/5) ∧
    List.Chain' (fun a b => a ≤ b)
      ((run_pzem_sim pzemSimInit ds).map MesureElectrique.energie) :=
  ⟨fun m hm => run_pzem_sim_mem_spec ds pzemSimInit m hm,
   run_pzem_sim_energie_chain ds pzemSimInit⟩

theorem C8_amended_witness :
    200 ≤ (lire_mesure_pzem_sim pzemSimInit ⟨0, 0, 0, 0⟩).2.tension ∧
    (lire_mesure_pzem_sim pzemSimInit ⟨0, 0, 0, 0⟩).2.tension ≤ 250 ∧
    0 ≤ (lire_mesure_pzem_sim pzemSimInit ⟨0, 0, 0, 0⟩).2.courant ∧
    (lire_mesure_pzem_sim pzemSimInit ⟨0, 0, 0, 0⟩).2.courant ≤ 10 ∧
    |(lire_mesure_pzem_sim pzemSimInit ⟨0, 0, 0, 0⟩).2.puissance
      - (lire_mesure_pzem_sim pzemSimInit ⟨0, 0, 0, 0⟩).2.tension *
        (lire_mesure_pzem_sim pzemSimInit ⟨0, 0, 0, 0⟩).2.courant| ≤ 1/5 :=
  (C8_amended [⟨0, 0, 0, 0⟩]).1 _ (List.mem_singleton.mpr rfl)

/-- C10: in the revised program the heat-index computation is total (the
embedding returns a value for every input) and, whenever the regression
polynomial cannot be evaluated (the `except` path, abstracted by the
failure flag), it silently returns the raw input temperature unchanged —
so a sample's heat-index field can equal the raw temperature even at
32 °C / 70 %, where the successfully evaluated polynomial would give
40.41 ≠ 32. -/
theorem C10_heat_index_fallback :
    (∀ (temp hum : ℚ), calculer_indice_chaleur_fixed true temp hum = temp) ∧
    calculer_indice_chaleur_fixed false 32 70 ≠ 32 ∧
    calculer_indice_chaleur_fixed true 32 70 = 32 := by
  refine ⟨fun temp hum => rfl, ?_, rfl⟩
  norm_num [calculer_indice_chaleur_fixed, heatIndexPoly, pyRound, pyRoundInt]

end Surveillance

